import Mathlib

/-!
Shallow embedding of `sharedpacker` (src/sharedpacker/src/main.rs).

The program resolves the transitive shared-library closure of an executable
by repeatedly invoking two external tools (`ldd` and `patchelf`) and parsing
their textual output, then copies the closure into an output directory and
patches each copy's interpreter and rpath.

External effects are modelled explicitly:
* tool invocations (`ldd p`, `patchelf --print-needed p`) are functions
  `String → Except String String` supplied by a `ToolEnv`, returning the
  tool's stdout or the error that `exechelper::execute` / a non-zero exit
  status produces in the Rust code;
* the recursion of `traverse_dependencies` is indexed by fuel, with `none`
  denoting fuel exhaustion (the Rust recursion has no fuel; termination for
  sufficient fuel is proved separately);
* filesystem operations of the packager are recorded as an `FsAction` trace,
  and `patchelf` / `chmod` invocations of the packager go through an
  oracle `List String → Except String ExecOutput`.
All string manipulation (`lines`, `trim`, `split`, `contains`, `starts_with`,
`rsplit`, `find`) is translated to explicit `List Char` recursions mirroring
the Rust standard-library semantics used by the source.
-/

/-! ## Character-list string primitives (Rust `str` methods) -/

/-- Rust `str::split(sep: char)`: pieces between occurrences of `sep`
(always at least one piece, empty pieces kept). -/
def splitOnCharAux (sep : Char) : List Char → List Char → List (List Char)
  | [], cur => [cur.reverse]
  | c :: rest, cur =>
    if c = sep then cur.reverse :: splitOnCharAux sep rest []
    else splitOnCharAux sep rest (c :: cur)

def splitOnChar (sep : Char) (l : List Char) : List (List Char) :=
  splitOnCharAux sep l []

/-- Rust `str::split(" => ")`: split on every non-overlapping occurrence of
the four-character arrow separator, scanning left to right. -/
def splitArrowAux : List Char → List Char → List (List Char)
  | ' ' :: '=' :: '>' :: ' ' :: rest, cur => cur.reverse :: splitArrowAux rest []
  | c :: rest, cur => splitArrowAux rest (c :: cur)
  | [], cur => [cur.reverse]

def splitArrow (l : List Char) : List (List Char) :=
  splitArrowAux l []

/-- Does `l` start with `pre`? (Rust `str::starts_with` on a string pattern.) -/
def startsWithL : List Char → List Char → Bool
  | [], _ => true
  | _ :: _, [] => false
  | p :: ps, c :: cs => p = c && startsWithL ps cs

/-- Does `hay` contain `needle` as a contiguous substring?
(Rust `str::contains` on a string pattern.) -/
def hasSubL (needle : List Char) : List Char → Bool
  | [] => startsWithL needle []
  | c :: cs => startsWithL needle (c :: cs) || hasSubL needle cs

/-- Whitespace recognised by Rust `trim_start`/`trim_end` (the ASCII cases). -/
def isWSChar (c : Char) : Bool :=
  c = ' ' || c = '\t' || c = '\r' || c = '\n'

/-- Rust `str::trim_start().trim_end()`. -/
def trimChars (l : List Char) : List Char :=
  ((l.dropWhile isWSChar).reverse.dropWhile isWSChar).reverse

/-- Rust `libname.rsplit('/').next().unwrap_or(libname)`: the segment after
the last `/` (the whole string if there is no `/`). -/
def lastSeg (l : List Char) : List Char :=
  match (splitOnChar '/' l).getLast? with
  | some s => s
  | none => l

/-- Rust `match pathpart.find(' ') { None => pathpart, Some(i) => &pathpart[0..i] }`. -/
def takeUntilSpace (l : List Char) : List Char :=
  l.takeWhile (fun c => c ≠ ' ')

/-- Rust `str::lines()` on captured stdout: split on `'\n'`, drop a final
empty piece produced by a trailing newline, strip one trailing `'\r'`. -/
def rustLinesC (s : String) : List (List Char) :=
  let parts := splitOnChar '\n' s.toList
  let parts := if parts.getLast? = some [] then parts.dropLast else parts
  parts.map (fun l => if l.getLast? = some '\r' then l.dropLast else l)

/-- String-level substring test (Rust `str::contains`). -/
def containsSub (hay needle : String) : Bool :=
  hasSubL needle.toList hay.toList

/-- Rust `{:?}` debug formatting of a `PathBuf`: the path in double quotes. -/
def quoteDbg (s : String) : String :=
  "\"" ++ s ++ "\""

/-! ## Data model (structs `SharedLib`, `DependencyNode`, the location map) -/

structure SharedLib where
  name : String
  path : String
deriving DecidableEq, Repr

structure DependencyNode where
  name : String
  path : String
  dependencies : List String
deriving DecidableEq, Repr

/-- `HashMap<String, PathBuf>` modelled as an association list with unique
keys; `insert` appends, `get` finds the first matching key. -/
abbrev LocationMap := List (String × String)

def lookupLoc : LocationMap → String → Option String
  | [], _ => none
  | (k, v) :: rest, key => if k = key then some v else lookupLoc rest key

/-- `known_lib_location_map.contains_key(&name)`. -/
def containsKeyLoc (m : LocationMap) (k : String) : Bool :=
  (lookupLoc m k).isSome

/-- The map-population loop of `traverse_dependencies` (main.rs lines
180–185): for each reported lib, insert its path only if the name is not
already a key (first insertion wins). -/
def addLibs (m : LocationMap) (libs : List SharedLib) : LocationMap :=
  libs.foldl
    (fun acc lib => if containsKeyLoc acc lib.name then acc else acc ++ [(lib.name, lib.path)])
    m

/-! ## `parse_ldd_output` (main.rs lines 41–119) -/

def arrowChars : List Char := [' ', '=', '>', ' ']
def notFoundChars : List Char := "not found".toList

/-- The per-line loop of `parse_ldd_output` over the captured `ldd` stdout,
with `outvec` the entries accumulated so far.  Faithful to main.rs lines
56–118: skip lines not starting with a space or tab; trim; skip lines
without `" => "`; error on a `"not found"` path part; with
`only_loader = false` skip names starting with `'/'`; with
`only_loader = true` return immediately on the first name starting with
`'/'`, stripped of its directory, discarding the accumulated entries (the
Rust `return Ok(vec![ ... ])`); truncate the path part at its first space;
otherwise push the entry and continue. -/
def parseLddLines (onlyLoader : Bool) :
    List (List Char) → List SharedLib → Except String (List SharedLib)
  | [], outvec => Except.ok outvec
  | line :: rest, outvec =>
    if !(startsWithL [' '] line || startsWithL ['\t'] line) then
      parseLddLines onlyLoader rest outvec
    else
      let noWhitespace := trimChars line
      if !hasSubL arrowChars noWhitespace then
        parseLddLines onlyLoader rest outvec
      else
        match splitArrow noWhitespace with
        | libname :: pathpart :: _ =>
          if hasSubL notFoundChars pathpart then
            Except.error ("Dependency on " ++ String.mk libname ++ " is not found")
          else if !onlyLoader && startsWithL ['/'] libname then
            parseLddLines onlyLoader rest outvec
          else
            let isLoader := onlyLoader && startsWithL ['/'] libname
            let libname2 := if isLoader then lastSeg libname else libname
            let pathpart2 := takeUntilSpace pathpart
            if isLoader then
              Except.ok [{ name := String.mk libname2, path := String.mk pathpart2 }]
            else
              parseLddLines onlyLoader rest
                (outvec ++ [{ name := String.mk libname2, path := String.mk pathpart2 }])
        | _ => Except.error "Failed to parse ldd output"

/-- External tool invocations: stdout of `ldd <path>` and of
`patchelf --print-needed <path>`, or the error produced when the
invocation fails or exits non-zero. -/
structure ToolEnv where
  lddOut : String → Except String String
  patchelfPrintNeeded : String → Except String String

/-- `parse_ldd_output(path, only_loader)`: run `ldd` and parse its stdout. -/
def parse_ldd_output (env : ToolEnv) (path : String) (onlyLoader : Bool) :
    Except String (List SharedLib) :=
  match env.lddOut path with
  | Except.error e => Except.error e
  | Except.ok out => parseLddLines onlyLoader (rustLinesC out) []

/-- `get_lib_path_list` (main.rs lines 121–125). -/
def get_lib_path_list (env : ToolEnv) (path : String) : Except String (List SharedLib) :=
  parse_ldd_output env path false

/-- `get_loader` (main.rs lines 127–135): parse in loader mode and take
element 0 of the result, failing if the parsed list is empty. -/
def get_loader (env : ToolEnv) (path : String) : Except String SharedLib :=
  match parse_ldd_output env path true with
  | Except.error e => Except.error e
  | Except.ok loader =>
    match loader.head? with
    | some lib => Except.ok lib
    | none => Except.error ("Failed to get loader from " ++ quoteDbg path)

def ldLinuxChars : List Char := "ld-linux".toList

/-- The line loop of `get_needed_libs` (main.rs lines 151–159): trim each
line, skip those starting with `"ld-linux"`, keep the rest. -/
def parseNeededLines : List (List Char) → List String
  | [] => []
  | line :: rest =>
    let trimmed := trimChars line
    if startsWithL ldLinuxChars trimmed then parseNeededLines rest
    else String.mk trimmed :: parseNeededLines rest

/-- `get_needed_libs` (main.rs lines 138–162): run
`patchelf --print-needed` and collect its trimmed output lines. -/
def get_needed_libs (env : ToolEnv) (path : String) : Except String (List String) :=
  match env.patchelfPrintNeeded path with
  | Except.error e => Except.error e
  | Except.ok out => Except.ok (parseNeededLines (rustLinesC out))

example :
    parseLddLines false
      (rustLinesC "\tlibA.so => /lib/libA.so (0x0001)\n\tlibB.so => /lib/libB.so (0x0002)\n") [] =
    Except.ok [⟨"libA.so", "/lib/libA.so"⟩, ⟨"libB.so", "/lib/libB.so"⟩] := rfl

example :
    parseLddLines false (rustLinesC "\tlibfoo.so => not found\n") [] =
    Except.error "Dependency on libfoo.so is not found" := rfl

example :
    parseLddLines true (rustLinesC "\t/lib64/ld-linux-x86-64.so.2 => /lib64/ld-linux-x86-64.so.2 (0x1)\n") [] =
    Except.ok [⟨"ld-linux-x86-64.so.2", "/lib64/ld-linux-x86-64.so.2"⟩] := rfl

example :
    parseNeededLines (rustLinesC "libA.so\nld-linux-x86-64.so.2\nlibB.so\n") =
    ["libA.so", "libB.so"] := by
  decide

/-! ## `traverse_dependencies` (main.rs lines 164–225)

The Rust function mutates a location map, a visited list (`use_libs`) and a
node list through `&mut` references; here they are threaded as an explicit
`TraversalState`.  The unbounded Rust recursion is indexed by fuel: `none`
means the fuel ran out, `some r` is the Rust function's `Result`.  One unit
of fuel is consumed per recursive `visit`; the loop over a binary's declared
dependencies (`goDeps`) is structural on the list and passes its fuel
through unchanged, exactly mirroring the call structure of the source. -/

structure TraversalState where
  locs : LocationMap
  visited : List String
  nodes : List DependencyNode
deriving DecidableEq, Repr

def initTS : TraversalState := { locs := [], visited := [], nodes := [] }

/-- The `for lib in needed_shared_libs` loop of `traverse_dependencies`
(main.rs lines 196–221), parameterised by the recursive visit (which in the
source is the recursive call to `traverse_dependencies` itself): record the
name on the node, look it up in the location map (error if absent), and
recurse unless the name is already in `use_libs`, pushing it to `use_libs`
first. -/
def goDeps (visit : TraversalState → String → String → Option (Except String TraversalState))
    (st : TraversalState) (libs : List String) (acc : List String) :
    Option (Except String (List String × TraversalState)) :=
  match libs with
  | [] => some (Except.ok (acc, st))
  | lib :: rest =>
    match lookupLoc st.locs lib with
    | none =>
      some (Except.error ("Found needed library that we don't know a location of: " ++ lib))
    | some lib_path =>
      if st.visited.contains lib then
        goDeps visit st rest (acc ++ [lib])
      else
        match visit { st with visited := st.visited ++ [lib] } lib_path lib with
        | none => none
        | some (Except.error e) => some (Except.error e)
        | some (Except.ok st2) => goDeps visit st2 rest (acc ++ [lib])

def traverse_dependencies (env : ToolEnv) : Nat → TraversalState → String → String →
    Option (Except String TraversalState)
  | 0, _, _, _ => none
  | Nat.succ f, st, needed_path, needed_name =>
    match get_lib_path_list env needed_path with
    | Except.error e => some (Except.error e)
    | Except.ok shared_libs =>
      let st1 : TraversalState := { st with locs := addLibs st.locs shared_libs }
      match get_needed_libs env needed_path with
      | Except.error e => some (Except.error e)
      | Except.ok needed_shared_libs =>
        match goDeps (traverse_dependencies env f) st1 needed_shared_libs [] with
        | none => none
        | some (Except.error e) => some (Except.error e)
        | some (Except.ok (deps, st2)) =>
          some (Except.ok { st2 with
            nodes := st2.nodes ++
              [{ name := needed_name, path := needed_path, dependencies := deps }] })

/-- Project the final state out of a successful traversal result
(a convenience for stating concrete-scenario facts). -/
def finalState (r : Option (Except String TraversalState)) : TraversalState :=
  match r with
  | some (Except.ok st) => st
  | _ => initTS

def isSomeOk (r : Option (Except String TraversalState)) : Bool :=
  match r with
  | some (Except.ok _) => true
  | _ => false

/-! ## Relocation packager (main.rs lines 227–336) -/

/-- The `exechelper` result: exit status, captured stdout and stderr. -/
structure ExecOutput where
  status : Int
  stdout : String
  stderr : String

/-- Filesystem side effects of the packager, recorded as a trace.  The
`std::fs` primitives themselves are modelled as always succeeding; external
command invocations (`patchelf`, `chmod`) go through an oracle and may fail. -/
inductive FsAction where
  | mkdirAll (p : String)
  | copyFile (src dst : String)
  | execCmd (args : List String)
  | renameFile (src dst : String)
  | writeFile (p : String) (content : String)
deriving DecidableEq, Repr

/-- The argument vector `patch_loader` passes to `patchelf`
(main.rs lines 252–256). -/
def patchLoaderArgs (loader object_path : String) : List String :=
  ["patchelf", "--set-interpreter", "./" ++ loader, "--set-rpath", ".", object_path]

/-- `patch_loader` (main.rs lines 248–269): run
`patchelf --set-interpreter ./<loader> --set-rpath . <object_path>`;
a non-zero status whose stderr mentions "statically linked" is treated as
success, any other non-zero status is an error naming the file. -/
def patch_loader (exec : List String → Except String ExecOutput)
    (loader : String) (object_path : String) : Except String Unit :=
  match exec (patchLoaderArgs loader object_path) with
  | Except.error e => Except.error e
  | Except.ok output =>
    if output.status ≠ 0 then
      if containsSub output.stderr "statically linked" then Except.ok ()
      else
        Except.error
          ("Failed to patch loader for " ++ quoteDbg object_path ++ "\n" ++ output.stderr)
    else Except.ok ()

/-- `make_shell_script_wrapper` (main.rs lines 271–280). -/
def make_shell_script_wrapper (execname : String) (loadername : String) : String :=
  let part_one : String :=
    "#!/usr/bin/env bash\n\nSCRIPTPATH=\"$( cd -- \"$(dirname \"$0\")\" >/dev/null 2>&1 ; pwd -P )\""
  let part_two :=
    "\"$SCRIPTPATH/" ++ loadername ++ "\" --library-path \"$SCRIPTPATH\" \"$SCRIPTPATH/" ++
      execname ++ "\" \"$@\""
  part_one ++ "\n" ++ part_two

/-- `Path::file_name()` of a path string: its last non-empty `/`-separated
segment (`none` for the root path or a path ending in `".."`). -/
def fileNameOf (p : String) : Option String :=
  let segs := (splitOnChar '/' p.toList).filter (fun s => s ≠ [])
  match segs.getLast? with
  | none => none
  | some s => if s = "..".toList then none else some (String.mk s)

/-- The `for dep in dependencies` loop of
`copy_dependencies_to_output_folder` (main.rs lines 291–303): copy each
dependency to `<archive_path>/<file_name>` and patch the copy's loader,
returning the recorded filesystem actions. -/
def copy_deps_loop (exec : List String → Except String ExecOutput)
    (archive_path : String) (loaderName : String) :
    List DependencyNode → Except String (List FsAction)
  | [] => Except.ok []
  | dep :: rest =>
    match fileNameOf dep.path with
    | none => Except.error ("Failed to find file name for " ++ quoteDbg dep.path)
    | some fname =>
      let output_path := archive_path ++ "/" ++ fname
      match patch_loader exec loaderName output_path with
      | Except.error e => Except.error e
      | Except.ok _ =>
        match copy_deps_loop exec archive_path loaderName rest with
        | Except.error e => Except.error e
        | Except.ok acts =>
          Except.ok (FsAction.copyFile dep.path output_path ::
            FsAction.execCmd (patchLoaderArgs loaderName output_path) :: acts)

/-- `copy_dependencies_to_output_folder` (main.rs lines 282–336): create the
archive directory, copy and patch every dependency, copy the loader under
its bare name, and (when `make_wrapper` is set) rename the copied root
executable to `.<execname>-original`, write the launcher script in its
place and `chmod +x` it. -/
def copy_dependencies_to_output_folder (exec : List String → Except String ExecOutput)
    (archive_path : String) (dependencies : List DependencyNode) (loader : SharedLib)
    (execname : String) (make_wrapper : Bool) : Except String (List FsAction) :=
  match copy_deps_loop exec archive_path loader.name dependencies with
  | Except.error e => Except.error e
  | Except.ok depActs =>
    if make_wrapper then
      match exec ["chmod", "+x", archive_path ++ "/" ++ execname] with
      | Except.error e => Except.error e
      | Except.ok out =>
        if out.status ≠ 0 then Except.error out.stderr
        else
          Except.ok (FsAction.mkdirAll archive_path ::
            (depActs ++
              [FsAction.copyFile loader.path (archive_path ++ "/" ++ loader.name)]) ++
            [FsAction.renameFile (archive_path ++ "/" ++ execname)
               (archive_path ++ "/" ++ ("." ++ execname ++ "-original")),
             FsAction.writeFile (archive_path ++ "/" ++ execname)
               (make_shell_script_wrapper ("." ++ execname ++ "-original") loader.name),
             FsAction.execCmd ["chmod", "+x", archive_path ++ "/" ++ execname]])
    else
      Except.ok (FsAction.mkdirAll archive_path ::
        (depActs ++ [FsAction.copyFile loader.path (archive_path ++ "/" ++ loader.name)]))

/-- The filesystem predicates `main` consults for its pre-copy check
(main.rs line 379): `PathBuf::is_dir` and `PathBuf::exists`. -/
structure FsView where
  isDir : String → Bool
  pathExists : String → Bool

/-- `output_name.is_dir() && output_name.exists() && !cli.force`
(main.rs line 379). -/
def output_exists_check (fs : FsView) (output_name : String) (force : Bool) : Bool :=
  fs.isDir output_name && fs.pathExists output_name && !force

/-- The tail of `main` after the output-exists check (main.rs lines
384–399): resolve the loader, then copy everything to the output folder. -/
def package_stage (env : ToolEnv) (exec : List String → Except String ExecOutput)
    (output_name : String) (dependencies : List DependencyNode)
    (execpath execname : String) (make_wrapper : Bool) :
    Except String (List FsAction) :=
  match get_loader env execpath with
  | Except.error e => Except.error e
  | Except.ok loader =>
    copy_dependencies_to_output_folder exec output_name dependencies loader execname make_wrapper

/-- `main` from the output-exists check onward (main.rs lines 378–399):
refuse an existing output directory unless `--force` was given, then
package.  A `std::process::exit(1)` with its message is modelled as
`Except.error` of that message. -/
def main_after_traversal (fs : FsView) (env : ToolEnv)
    (exec : List String → Except String ExecOutput)
    (output_name : String) (force : Bool) (dependencies : List DependencyNode)
    (execpath execname : String) (make_wrapper : Bool) :
    Except String (List FsAction) :=
  if output_exists_check fs output_name force then
    Except.error
      ("Output directory " ++ quoteDbg output_name ++
        " already exists. use --force if you want to override")
  else
    package_stage env exec output_name dependencies execpath execname make_wrapper

/-! ## Concrete tool environments for the scenario theorems -/

/-- Diamond: `app` needs `libA.so` then `libB.so`; both need `libC.so`,
reported at the same path by both parents. -/
def diamondEnv : ToolEnv :=
  { lddOut := fun p =>
      if p = "/app" then
        Except.ok "\tlibA.so => /lib/libA.so (0x0001)\n\tlibB.so => /lib/libB.so (0x0002)\n"
      else if p = "/lib/libA.so" then
        Except.ok "\tlibC.so => /lib/libC.so (0x0003)\n"
      else if p = "/lib/libB.so" then
        Except.ok "\tlibC.so => /lib/libC.so (0x0003)\n"
      else if p = "/lib/libC.so" then
        Except.ok ""
      else Except.error "ldd: no such file"
    patchelfPrintNeeded := fun p =>
      if p = "/app" then Except.ok "libA.so\nlibB.so\n"
      else if p = "/lib/libA.so" then Except.ok "libC.so\n"
      else if p = "/lib/libB.so" then Except.ok "libC.so\n"
      else if p = "/lib/libC.so" then Except.ok ""
      else Except.error "patchelf: no such file" }

/-- Two ancestors disagree: `libA.so`'s report resolves `libC.so` to
`/one/libC.so`, `libB.so`'s later report resolves it to `/two/libC.so`. -/
def disagreeEnv : ToolEnv :=
  { lddOut := fun p =>
      if p = "/app" then
        Except.ok "\tlibA.so => /lib/libA.so (0x0001)\n\tlibB.so => /lib/libB.so (0x0002)\n"
      else if p = "/lib/libA.so" then
        Except.ok "\tlibC.so => /one/libC.so (0x0003)\n"
      else if p = "/lib/libB.so" then
        Except.ok "\tlibC.so => /two/libC.so (0x0004)\n"
      else if p = "/one/libC.so" then
        Except.ok ""
      else Except.error "ldd: no such file"
    patchelfPrintNeeded := fun p =>
      if p = "/app" then Except.ok "libA.so\nlibB.so\n"
      else if p = "/lib/libA.so" then Except.ok "libC.so\n"
      else if p = "/lib/libB.so" then Except.ok "libC.so\n"
      else if p = "/one/libC.so" then Except.ok ""
      else Except.error "patchelf: no such file" }

/-- A dependency cycle: `app` needs `libA.so`, `libA.so` needs `libB.so`,
`libB.so` needs `libA.so` back. -/
def cycleEnv : ToolEnv :=
  { lddOut := fun p =>
      if p = "/app" then
        Except.ok "\tlibA.so => /lib/libA.so (0x0001)\n"
      else if p = "/lib/libA.so" then
        Except.ok "\tlibB.so => /lib/libB.so (0x0002)\n"
      else if p = "/lib/libB.so" then
        Except.ok "\tlibA.so => /lib/libA.so (0x0001)\n"
      else Except.error "ldd: no such file"
    patchelfPrintNeeded := fun p =>
      if p = "/app" then Except.ok "libA.so\n"
      else if p = "/lib/libA.so" then Except.ok "libB.so\n"
      else if p = "/lib/libB.so" then Except.ok "libA.so\n"
      else Except.error "patchelf: no such file" }

/-- A root executable with no dependencies at all. -/
def trivEnv : ToolEnv :=
  { lddOut := fun p => if p = "/app" then Except.ok "" else Except.error "ldd: no such file"
    patchelfPrintNeeded := fun p =>
      if p = "/app" then Except.ok "" else Except.error "patchelf: no such file" }

/-- The inspector reports a dependency of `myprog` as `"not found"`. -/
def notFoundEnv : ToolEnv :=
  { lddOut := fun p =>
      if p = "/bin/myprog" then Except.ok "\tlibfoo.so => not found\n"
      else Except.error "ldd: no such file"
    patchelfPrintNeeded := fun _ => Except.ok "" }

example :
    (finalState (traverse_dependencies diamondEnv 10 initTS "/app" "app")).nodes.map
      DependencyNode.name = ["libC.so", "libA.so", "libB.so", "app"] := rfl

example :
    (finalState (traverse_dependencies diamondEnv 10 initTS "/app" "app")).visited =
      ["libA.so", "libC.so", "libB.so"] := rfl

example :
    lookupLoc (finalState (traverse_dependencies disagreeEnv 10 initTS "/app" "app")).locs
      "libC.so" = some "/one/libC.so" := rfl

example :
    (finalState (traverse_dependencies cycleEnv 10 initTS "/app" "app")).nodes =
      [⟨"libB.so", "/lib/libB.so", ["libA.so"]⟩,
       ⟨"libA.so", "/lib/libA.so", ["libB.so"]⟩,
       ⟨"app", "/app", ["libA.so"]⟩] := rfl

example : isSomeOk (traverse_dependencies trivEnv 2 initTS "/app" "app") = true := rfl

example :
    traverse_dependencies notFoundEnv 1 initTS "/bin/myprog" "myprog" =
      some (Except.error "Dependency on libfoo.so is not found") := rfl

/-! ## Lemmas about the location map -/

theorem lookupLoc_append_some (m m2 : LocationMap) (k v : String)
    (h : lookupLoc m k = some v) : lookupLoc (m ++ m2) k = some v := by
  induction m with
  | nil => simp [lookupLoc] at h
  | cons p rest ih =>
    obtain ⟨a, b⟩ := p
    by_cases hk : a = k
    · simpa [lookupLoc, hk] using h
    · rw [List.cons_append]
      simp only [lookupLoc, hk, if_false] at h ⊢
      exact ih h

theorem lookupLoc_append_single_ne (m : LocationMap) (a b k : String) (h : a ≠ k) :
    lookupLoc (m ++ [(a, b)]) k = lookupLoc m k := by
  induction m with
  | nil => simp [lookupLoc, h]
  | cons p rest ih =>
    obtain ⟨x, y⟩ := p
    by_cases hx : x = k <;> simp [lookupLoc, hx, ih]

theorem addLibs_cons (m : LocationMap) (x : SharedLib) (rest : List SharedLib) :
    addLibs m (x :: rest) =
      addLibs (if containsKeyLoc m x.name then m else m ++ [(x.name, x.path)]) rest := rfl

theorem addLibs_append (m : LocationMap) (libs : List SharedLib) :
    ∃ δ, addLibs m libs = m ++ δ := by
  induction libs generalizing m with
  | nil => exact ⟨[], by simp [addLibs]⟩
  | cons x rest ih =>
    rw [addLibs_cons]
    by_cases h : containsKeyLoc m x.name
    · rw [if_pos h]; exact ih m
    · rw [if_neg h]
      obtain ⟨δ, hδ⟩ := ih (m ++ [(x.name, x.path)])
      exact ⟨(x.name, x.path) :: δ, by rw [hδ]; simp⟩

theorem lookupLoc_addLibs_some (m : LocationMap) (libs : List SharedLib) (k v : String)
    (h : lookupLoc m k = some v) : lookupLoc (addLibs m libs) k = some v := by
  obtain ⟨δ, hδ⟩ := addLibs_append m libs
  rw [hδ]
  exact lookupLoc_append_some _ _ _ _ h

theorem addLibs_new_key (m : LocationMap) (libs : List SharedLib) (k v : String)
    (h0 : lookupLoc m k = none) (h1 : lookupLoc (addLibs m libs) k = some v) :
    ∃ lib ∈ libs, lib.name = k := by
  induction libs generalizing m with
  | nil =>
    rw [show addLibs m [] = m from rfl, h0] at h1
    cases h1
  | cons x rest ih =>
    rw [addLibs_cons] at h1
    by_cases hc : containsKeyLoc m x.name
    · rw [if_pos hc] at h1
      obtain ⟨lib, hm, hn⟩ := ih m h0 h1
      exact ⟨lib, List.mem_cons_of_mem _ hm, hn⟩
    · rw [if_neg hc] at h1
      by_cases hk : x.name = k
      · exact ⟨x, List.mem_cons_self _ _, hk⟩
      · have h0' : lookupLoc (m ++ [(x.name, x.path)]) k = none := by
          rw [lookupLoc_append_single_ne _ _ _ _ hk]; exact h0
        obtain ⟨lib, hm, hn⟩ := ih _ h0' h1
        exact ⟨lib, List.mem_cons_of_mem _ hm, hn⟩

/-! ## Loader entries are excluded from ordinary resolution -/

/-- In non-loader mode, `parse_ldd_output` never returns an entry whose name
starts with `'/'` (main.rs lines 79–83): such entries can therefore never be
inserted into the location map. -/
theorem parseLddLines_false_no_slash (lines : List (List Char))
    (outvec : List SharedLib) (r : List SharedLib)
    (hacc : ∀ lib ∈ outvec, startsWithL ['/'] lib.name.toList = false)
    (h : parseLddLines false lines outvec = Except.ok r) :
    ∀ lib ∈ r, startsWithL ['/'] lib.name.toList = false := by
  induction lines generalizing outvec r with
  | nil =>
    simp only [parseLddLines] at h
    cases h
    exact hacc
  | cons line rest ih =>
    simp only [parseLddLines] at h
    split at h
    · exact ih outvec r hacc h
    · split at h
      · exact ih outvec r hacc h
      · split at h
        · rename_i libname pathpart tail heq
          split at h
          · cases h
          · split at h
            · exact ih outvec r hacc h
            · rename_i hslash
              have hsl : startsWithL ['/'] libname = false := by
                cases hEq : startsWithL ['/'] libname
                · rfl
                · exact absurd (by simp [hEq]) hslash
              simp only [Bool.false_and, Bool.false_eq_true, if_false] at h
              refine ih _ r ?_ h
              intro lib hm
              rcases List.mem_append.mp hm with hm | hm
              · exact hacc lib hm
              · rw [List.mem_singleton.mp hm]
                simpa using hsl
        · cases h

theorem get_lib_path_list_no_slash (env : ToolEnv) (p : String) (r : List SharedLib)
    (h : get_lib_path_list env p = Except.ok r) :
    ∀ lib ∈ r, startsWithL ['/'] lib.name.toList = false := by
  unfold get_lib_path_list parse_ldd_output at h
  cases hout : env.lddOut p with
  | error e => rw [hout] at h; cases h
  | ok out =>
    rw [hout] at h
    exact parseLddLines_false_no_slash _ [] _ (by intro lib hm; cases hm) h

theorem contains_true_iff (l : List String) (x : String) : l.contains x = true ↔ x ∈ l := by
  simp

theorem nodup_push (l : List String) (x : String) (h : l.Nodup) (hx : x ∉ l) :
    (l ++ [x]).Nodup := by
  simp [List.nodup_append, h, hx]

/-! ## State evolution of a successful traversal

`VisitEvolve p n st st'` collects what one successful call
`traverse_dependencies env fuel st p n = some (ok st')` does to the
traversal state; `GoDepsEvolve` is the analogue for the dependency loop. -/

structure VisitEvolve (path name : String) (st st' : TraversalState) : Prop where
  vext : ∃ δ, st'.visited = st.visited ++ δ
  next : ∃ δ, st'.nodes = st.nodes ++ δ
  locsKeep : ∀ k v, lookupLoc st.locs k = some v → lookupLoc st'.locs k = some v
  len : st'.nodes.length + st.visited.length = st.nodes.length + st'.visited.length + 1
  cnt : ∀ x, (st'.nodes.map DependencyNode.name).count x + st.visited.count x
      = (st.nodes.map DependencyNode.name).count x + st'.visited.count x
        + (if x = name then 1 else 0)
  nod : st.visited.Nodup → st'.visited.Nodup
  depsVisited : ∀ nd ∈ st'.nodes, nd ∈ st.nodes ∨ (∀ d ∈ nd.dependencies, d ∈ st'.visited)
  newKeys : ∀ k v, lookupLoc st.locs k = none → lookupLoc st'.locs k = some v →
      startsWithL ['/'] k.toList = false
  lastNode : ∃ pre deps, st'.nodes = pre ++ [⟨name, path, deps⟩]

structure GoDepsEvolve (st : TraversalState) (libs acc accOut : List String)
    (st' : TraversalState) : Prop where
  vext : ∃ δ, st'.visited = st.visited ++ δ
  next : ∃ δ, st'.nodes = st.nodes ++ δ
  locsKeep : ∀ k v, lookupLoc st.locs k = some v → lookupLoc st'.locs k = some v
  len : st'.nodes.length + st.visited.length = st.nodes.length + st'.visited.length
  cnt : ∀ x, (st'.nodes.map DependencyNode.name).count x + st.visited.count x
      = (st.nodes.map DependencyNode.name).count x + st'.visited.count x
  nod : st.visited.Nodup → st'.visited.Nodup
  accEq : accOut = acc ++ libs
  accMem : (∀ d ∈ acc, d ∈ st.visited) → ∀ d ∈ accOut, d ∈ st'.visited
  depsVisited : ∀ nd ∈ st'.nodes, nd ∈ st.nodes ∨ (∀ d ∈ nd.dependencies, d ∈ st'.visited)
  newKeys : ∀ k v, lookupLoc st.locs k = none → lookupLoc st'.locs k = some v →
      startsWithL ['/'] k.toList = false

theorem goDeps_evolve
    (visit : TraversalState → String → String → Option (Except String TraversalState))
    (Hv : ∀ st p n st', visit st p n = some (Except.ok st') → VisitEvolve p n st st') :
    ∀ (libs : List String) (st : TraversalState) (acc accOut : List String)
      (st' : TraversalState),
      goDeps visit st libs acc = some (Except.ok (accOut, st')) →
      GoDepsEvolve st libs acc accOut st' := by
  intro libs
  induction libs with
  | nil =>
    intro st acc accOut st' h
    simp only [goDeps] at h
    cases h
    exact {
      vext := ⟨[], by simp⟩
      next := ⟨[], by simp⟩
      locsKeep := fun k v hk => hk
      len := by omega
      cnt := fun x => by omega
      nod := fun hn => hn
      accEq := by simp
      accMem := fun hacc => hacc
      depsVisited := fun nd hnd => Or.inl hnd
      newKeys := fun k v h0 h1 => by rw [h0] at h1; cases h1 }
  | cons lib rest ih =>
    intro st acc accOut st' h
    simp only [goDeps] at h
    split at h
    · simp at h
    · rename_i lib_path hlk
      split at h
      · rename_i hcont
        have hmem : lib ∈ st.visited := (contains_true_iff _ _).mp hcont
        have g := ih st (acc ++ [lib]) accOut st' h
        exact {
          vext := g.vext
          next := g.next
          locsKeep := g.locsKeep
          len := g.len
          cnt := g.cnt
          nod := g.nod
          accEq := by rw [g.accEq]; simp
          accMem := by
            intro hacc
            refine g.accMem ?_
            intro d hd
            rcases List.mem_append.mp hd with hd | hd
            · exact hacc d hd
            · rw [List.mem_singleton.mp hd]; exact hmem
          depsVisited := g.depsVisited
          newKeys := g.newKeys }
      · rename_i hcont
        have hnmem : lib ∉ st.visited := fun hm =>
          hcont ((contains_true_iff _ _).mpr hm)
        split at h
        · simp at h
        · simp at h
        · rename_i st2 hv
          · have ve := Hv _ _ _ _ hv
            have g := ih st2 (acc ++ [lib]) accOut st' h
            have hlibmem2 : lib ∈ st2.visited := by
              obtain ⟨δ1, hδ1⟩ := ve.vext
              rw [hδ1]
              simp only [TraversalState.visited] at *
              exact List.mem_append_left _ (List.mem_append_right _ (List.mem_singleton.mpr rfl))
            exact {
              vext := by
                obtain ⟨δ1, hδ1⟩ := ve.vext
                obtain ⟨δ2, hδ2⟩ := g.vext
                refine ⟨[lib] ++ δ1 ++ δ2, ?_⟩
                rw [hδ2, hδ1]
                simp
              next := by
                obtain ⟨δ1, hδ1⟩ := ve.next
                obtain ⟨δ2, hδ2⟩ := g.next
                refine ⟨δ1 ++ δ2, ?_⟩
                rw [hδ2, hδ1]
                simp
              locsKeep := fun k v hk => g.locsKeep k v (ve.locsKeep k v hk)
              len := by
                have h1 := ve.len
                have h2 := g.len
                simp only [TraversalState.visited, TraversalState.nodes,
                  List.length_append, List.length_singleton] at h1
                omega
              cnt := by
                intro x
                have h1 := ve.cnt x
                have h2 := g.cnt x
                simp only [TraversalState.visited, TraversalState.nodes,
                  List.count_append] at h1
                by_cases hx : x = lib
                · subst hx
                  simp at h1
                  omega
                · simp only [if_neg hx] at h1
                  have : ([lib].count x) = 0 := List.count_eq_zero.mpr (by simp [hx])
                  omega
              nod := by
                intro hn
                refine g.nod (ve.nod ?_)
                exact nodup_push _ _ hn hnmem
              accEq := by rw [g.accEq]; simp
              accMem := by
                intro hacc
                refine g.accMem ?_
                intro d hd
                rcases List.mem_append.mp hd with hd | hd
                · have hd1 : d ∈ st.visited ++ [lib] := List.mem_append_left _ (hacc d hd)
                  obtain ⟨δ1, hδ1⟩ := ve.vext
                  rw [hδ1]
                  exact List.mem_append_left _ hd1
                · rw [List.mem_singleton.mp hd]; exact hlibmem2
              depsVisited := by
                intro nd hnd
                rcases g.depsVisited nd hnd with hin | hsub
                · rcases ve.depsVisited nd hin with hin2 | hsub2
                  · exact Or.inl hin2
                  · refine Or.inr ?_
                    intro d hd
                    obtain ⟨δ2, hδ2⟩ := g.vext
                    rw [hδ2]
                    exact List.mem_append_left _ (hsub2 d hd)
                · exact Or.inr hsub
              newKeys := by
                intro k v h0 h1
                cases hmid : lookupLoc st2.locs k with
                | none => exact g.newKeys k v hmid h1
                | some v2 => exact ve.newKeys k v2 h0 hmid }

theorem traverse_evolve (env : ToolEnv) :
    ∀ (fuel : Nat) (st : TraversalState) (p n : String) (st' : TraversalState),
      traverse_dependencies env fuel st p n = some (Except.ok st') →
      VisitEvolve p n st st' := by
  intro fuel
  induction fuel with
  | zero =>
    intro st p n st' h
    simp [traverse_dependencies] at h
  | succ f ih =>
    intro st p n st' h
    simp only [traverse_dependencies] at h
    split at h
    · simp at h
    · rename_i shared_libs hldd
      split at h
      · simp at h
      · rename_i ns hneed
        split at h
        · simp at h
        · simp at h
        · rename_i y deps st2 hg
          simp only [Option.some.injEq, Except.ok.injEq] at h
          subst h
          have g := goDeps_evolve (traverse_dependencies env f) (ih) ns
            { st with locs := addLibs st.locs shared_libs } [] deps st2 hg
          refine {
            vext := ?_, next := ?_, locsKeep := ?_, len := ?_, cnt := ?_, nod := ?_,
            depsVisited := ?_, newKeys := ?_, lastNode := ?_ }
          · exact g.vext
          · obtain ⟨δ, hδ⟩ := g.next
            exact ⟨δ ++ [⟨n, p, deps⟩], by simp only [hδ]; simp⟩
          · intro k v hk
            exact g.locsKeep k v (lookupLoc_addLibs_some _ _ _ _ hk)
          · have h2 := g.len
            simp only [List.length_append, List.length_singleton] at *
            omega
          · intro x
            have h2 := g.cnt x
            simp only [List.map_append, List.count_append] at *
            by_cases hx : x = n
            · subst hx
              simp
              omega
            · simp [hx]
              have : (List.count x [n]) = 0 := List.count_eq_zero.mpr (by simp [hx])
              simp [List.map_singleton, List.count_singleton] at *
              omega
          · exact g.nod
          · intro nd hnd
            simp only [List.mem_append, List.mem_singleton] at hnd
            rcases hnd with hnd | hnd
            · rcases g.depsVisited nd hnd with hin | hsub
              · exact Or.inl hin
              · exact Or.inr hsub
            · subst hnd
              refine Or.inr ?_
              intro d hd
              exact g.accMem (by intro d hd; cases hd) d hd
          · intro k v h0 h1
            cases hmid : lookupLoc (addLibs st.locs shared_libs) k with
            | none => exact g.newKeys k v hmid h1
            | some v1 =>
              obtain ⟨lib, hlib, hname⟩ := addLibs_new_key _ _ _ _ h0 hmid
              have := get_lib_path_list_no_slash env p shared_libs hldd lib hlib
              rw [hname] at this
              exact this
          · exact ⟨st2.nodes, deps, rfl⟩

/-! ## Termination: enough fuel always suffices

The Rust recursion terminates because a name is pushed onto `use_libs`
before the recursive call; formally, the number of names of a bounding set
`N` not yet in `use_libs` strictly decreases at every recursive visit, so
fuel exceeding that number can never run out. -/

/-- The number of names in `names` that are not yet in `visited`. -/
def unvisitedCount (names visited : List String) : Nat :=
  (names.filter (fun x => !(visited.contains x))).length

theorem filter_length_le_of_imp {α : Type} (p q : α → Bool) (l : List α)
    (h : ∀ a, p a = true → q a = true) :
    (l.filter p).length ≤ (l.filter q).length := by
  induction l with
  | nil => simp
  | cons x rest ih =>
    by_cases hp : p x = true
    · rw [List.filter_cons_of_pos hp, List.filter_cons_of_pos (h x hp)]
      simpa using ih
    · rw [List.filter_cons_of_neg (by simpa using hp)]
      by_cases hq : q x = true
      · rw [List.filter_cons_of_pos hq]
        simp only [List.length_cons]
        omega
      · rw [List.filter_cons_of_neg (by simpa using hq)]
        exact ih

theorem filter_length_lt_of_imp {α : Type} (p q : α → Bool) (l : List α) (a : α)
    (h : ∀ b, p b = true → q b = true) (ha : a ∈ l) (hqa : q a = true)
    (hpa : p a = false) :
    (l.filter p).length + 1 ≤ (l.filter q).length := by
  induction l with
  | nil => cases ha
  | cons x rest ih =>
    rcases List.mem_cons.mp ha with hx | hx
    · subst hx
      rw [List.filter_cons_of_pos hqa, List.filter_cons_of_neg (by simp [hpa])]
      simp only [List.length_cons]
      have := filter_length_le_of_imp p q rest h
      omega
    · by_cases hp : p x = true
      · rw [List.filter_cons_of_pos hp, List.filter_cons_of_pos (h x hp)]
        simp only [List.length_cons]
        have := ih hx
        omega
      · rw [List.filter_cons_of_neg (by simpa using hp)]
        by_cases hq : q x = true
        · rw [List.filter_cons_of_pos hq]
          simp only [List.length_cons]
          have := ih hx
          omega
        · rw [List.filter_cons_of_neg (by simpa using hq)]
          exact ih hx

theorem contains_false_of_append (v δ : List String) (a : String)
    (h : (v ++ δ).contains a = false) : v.contains a = false := by
  cases hc : v.contains a
  · rfl
  · exfalso
    have hmem : a ∈ v ++ δ := List.mem_append_left _ ((contains_true_iff _ _).mp hc)
    have h2 : (v ++ δ).contains a = true := (contains_true_iff _ _).mpr hmem
    rw [h] at h2
    cases h2

theorem unvisited_append_le (names v δ : List String) :
    unvisitedCount names (v ++ δ) ≤ unvisitedCount names v := by
  unfold unvisitedCount
  refine filter_length_le_of_imp _ _ _ ?_
  intro a ha
  simp only [Bool.not_eq_true'] at ha ⊢
  exact contains_false_of_append _ _ _ ha

theorem unvisited_push_lt (names v : List String) (x : String)
    (hx : x ∈ names) (hnv : x ∉ v) :
    unvisitedCount names (v ++ [x]) + 1 ≤ unvisitedCount names v := by
  unfold unvisitedCount
  refine filter_length_lt_of_imp _ _ _ x ?_ hx ?_ ?_
  · intro b hb
    simp only [Bool.not_eq_true'] at hb ⊢
    exact contains_false_of_append _ _ _ hb
  · simp only [Bool.not_eq_true']
    cases hc : v.contains x
    · rfl
    · exact absurd ((contains_true_iff _ _).mp hc) hnv
  · have hc : (v ++ [x]).contains x = true :=
      (contains_true_iff _ _).mpr (List.mem_append_right _ (List.mem_singleton.mpr rfl))
    simp [hc]

theorem goDeps_isSome
    (visit : TraversalState → String → String → Option (Except String TraversalState))
    (N : List String) (f : Nat)
    (Hterm : ∀ st p n, unvisitedCount N st.visited + 1 ≤ f → (visit st p n).isSome = true)
    (Hev : ∀ st p n st', visit st p n = some (Except.ok st') →
      ∃ δ, st'.visited = st.visited ++ δ) :
    ∀ (libs : List String) (st : TraversalState) (acc : List String),
      (∀ x ∈ libs, x ∈ N) → unvisitedCount N st.visited ≤ f →
      (goDeps visit st libs acc).isSome = true := by
  intro libs
  induction libs with
  | nil => intro st acc _ _; simp [goDeps]
  | cons lib rest ih =>
    intro st acc hsub hle
    simp only [goDeps]
    cases hlk : lookupLoc st.locs lib with
    | none => simp
    | some lib_path =>
      simp only
      by_cases hcont : st.visited.contains lib = true
      · rw [if_pos hcont]
        exact ih st (acc ++ [lib]) (fun x hx => hsub x (List.mem_cons_of_mem _ hx)) hle
      · rw [if_neg hcont]
        have hnv : lib ∉ st.visited := fun hm => hcont ((contains_true_iff _ _).mpr hm)
        have hlibN : lib ∈ N := hsub lib (List.mem_cons_self _ _)
        have hlt : unvisitedCount N (st.visited ++ [lib]) + 1 ≤ unvisitedCount N st.visited :=
          unvisited_push_lt N st.visited lib hlibN hnv
        have hvs : (visit { st with visited := st.visited ++ [lib] } lib_path lib).isSome = true := by
          refine Hterm _ _ _ ?_
          simp only
          omega
        cases hv : visit { st with visited := st.visited ++ [lib] } lib_path lib with
        | none => rw [hv] at hvs; cases hvs
        | some x =>
          cases x with
          | error e => simp
          | ok st2 =>
            simp only
            refine ih st2 (acc ++ [lib]) (fun x hx => hsub x (List.mem_cons_of_mem _ hx)) ?_
            obtain ⟨δ, hδ⟩ := Hev _ _ _ _ hv
            rw [hδ]
            simp only at hδ ⊢
            have hle2 : unvisitedCount N ((st.visited ++ [lib]) ++ δ) ≤
                unvisitedCount N (st.visited ++ [lib]) := unvisited_append_le _ _ _
            omega

theorem traverse_isSome (env : ToolEnv) (N : List String)
    (Hn : ∀ p ns, get_needed_libs env p = Except.ok ns → ∀ x ∈ ns, x ∈ N) :
    ∀ (fuel : Nat) (st : TraversalState) (p n : String),
      unvisitedCount N st.visited + 1 ≤ fuel →
      (traverse_dependencies env fuel st p n).isSome = true := by
  intro fuel
  induction fuel with
  | zero => intro st p n hle; omega
  | succ f ih =>
    intro st p n hle
    simp only [traverse_dependencies]
    cases hldd : get_lib_path_list env p with
    | error e => simp
    | ok shared_libs =>
      simp only
      cases hneed : get_needed_libs env p with
      | error e => simp
      | ok ns =>
        simp only
        have hg : (goDeps (traverse_dependencies env f)
            { st with locs := addLibs st.locs shared_libs } ns []).isSome = true := by
          refine goDeps_isSome (traverse_dependencies env f) N f
            (fun st2 p2 n2 hle2 => ih st2 p2 n2 hle2)
            (fun st2 p2 n2 st2' h2 => (traverse_evolve env f st2 p2 n2 st2' h2).vext)
            ns _ [] (Hn p ns hneed) ?_
          simp only
          omega
        cases hgd : goDeps (traverse_dependencies env f)
            { st with locs := addLibs st.locs shared_libs } ns [] with
        | none => rw [hgd] at hg; cases hg
        | some x =>
          cases x with
          | error e => simp
          | ok pr => simp

/-! ## Claim theorems -/

/-- C4: for every visited binary and every declared dependency name of it
(in declared order), if the name has no entry in the LocationMap at the
moment it is looked up, resolution fails immediately with an
UnresolvedDependency-style error naming that dependency, and no further
dependency of that binary is processed (the result does not depend on the
remaining dependency list).  Stated on the dependency loop `goDeps` of
`traverse_dependencies` (main.rs lines 200–205) and, for a head dependency,
on `traverse_dependencies` itself. -/
theorem claim_C4 :
    (∀ (visit : TraversalState → String → String → Option (Except String TraversalState))
       (st : TraversalState) (lib : String) (rest rest' acc : List String),
       lookupLoc st.locs lib = none →
       goDeps visit st (lib :: rest) acc =
         some (Except.error ("Found needed library that we don't know a location of: " ++ lib)) ∧
       goDeps visit st (lib :: rest) acc = goDeps visit st (lib :: rest') acc) ∧
    (∀ (env : ToolEnv) (f : Nat) (st : TraversalState) (p n : String)
       (shared_libs : List SharedLib) (lib : String) (ns : List String),
       get_lib_path_list env p = Except.ok shared_libs →
       get_needed_libs env p = Except.ok (lib :: ns) →
       lookupLoc (addLibs st.locs shared_libs) lib = none →
       traverse_dependencies env (f + 1) st p n =
         some (Except.error ("Found needed library that we don't know a location of: " ++ lib))) := by
  constructor
  · intro visit st lib rest rest' acc h
    constructor
    · simp only [goDeps]
      rw [h]
    · simp only [goDeps]
      rw [h]
  · intro env f st p n shared_libs lib ns h1 h2 h3
    simp only [traverse_dependencies]
    rw [h1, h2]
    simp only [goDeps]
    rw [h3]

def c4State : TraversalState := { locs := [("libA.so", "/lib/libA.so")], visited := [], nodes := [] }

/-- Witness for C4 at a concrete state: `libZ.so` has no map entry, so the
loop fails with the exact message, independently of the remaining list. -/
theorem claim_C4_witness :
    goDeps (traverse_dependencies trivEnv 1) c4State ["libZ.so", "libA.so"] [] =
      some (Except.error ("Found needed library that we don't know a location of: " ++ "libZ.so")) ∧
    goDeps (traverse_dependencies trivEnv 1) c4State ["libZ.so", "libA.so"] [] =
      goDeps (traverse_dependencies trivEnv 1) c4State ["libZ.so"] [] := by
  have h := claim_C4.1 (traverse_dependencies trivEnv 1) c4State "libZ.so"
    ["libA.so"] [] [] (by rfl)
  exact ⟨h.1, h.2⟩

/-- C5 counterexample: the MissingLibrary-style error produced for an
inspector-reported `"not found"` dependency names only the dependency; the
path and the name of the binary that required it (`/bin/myprog`, `myprog`)
do not occur in the error message, contradicting the claim that the error
names both the dependency and the binary. -/
theorem claim_C5_counterexample :
    traverse_dependencies notFoundEnv 1 initTS "/bin/myprog" "myprog" =
      some (Except.error "Dependency on libfoo.so is not found") ∧
    containsSub "Dependency on libfoo.so is not found" "/bin/myprog" = false ∧
    containsSub "Dependency on libfoo.so is not found" "myprog" = false := by
  exact ⟨rfl, by decide, by decide⟩

/-- C5 (amended): if the inspector reports any direct dependency as
unresolved ("not found"), `parse_ldd_output` fails with
`Dependency on <name> is not found`, naming the missing dependency (but not
the binary that required it), and resolution fails immediately with that
same error. -/
theorem claim_C5_amended :
    (∀ (env : ToolEnv) (f : Nat) (st : TraversalState) (p n e : String),
       get_lib_path_list env p = Except.error e →
       traverse_dependencies env (f + 1) st p n = some (Except.error e)) ∧
    parseLddLines false (rustLinesC "\tlibfoo.so => not found\n") [] =
      Except.error ("Dependency on " ++ "libfoo.so" ++ " is not found") ∧
    containsSub ("Dependency on " ++ "libfoo.so" ++ " is not found") "libfoo.so" = true := by
  refine ⟨?_, rfl, by decide⟩
  intro env f st p n e h
  simp only [traverse_dependencies]
  rw [h]

/-- Witness for C5 (amended) at the concrete not-found scenario. -/
theorem claim_C5_amended_witness :
    traverse_dependencies notFoundEnv 3 initTS "/bin/myprog" "myprog" =
      some (Except.error "Dependency on libfoo.so is not found") := by
  exact claim_C5_amended.1 notFoundEnv 2 initTS "/bin/myprog" "myprog"
    "Dependency on libfoo.so is not found" (by rfl)

/-- C9: if the output path is an existing directory and the override flag is
not given, the operation fails with the already-exists error before any file
copy into the output location occurs (the packaging stage, which performs
every copy, is never entered and the result carries no filesystem actions). -/
theorem claim_C9 (fs : FsView) (env : ToolEnv)
    (exec : List String → Except String ExecOutput) (output_name : String) (force : Bool)
    (deps : List DependencyNode) (execpath execname : String) (mw : Bool)
    (h : output_exists_check fs output_name force = true) :
    main_after_traversal fs env exec output_name force deps execpath execname mw =
      Except.error ("Output directory " ++ quoteDbg output_name ++
        " already exists. use --force if you want to override") := by
  unfold main_after_traversal
  rw [h]
  simp

def existingDirFs : FsView := { isDir := fun p => p = "out", pathExists := fun p => p = "out" }

/-- Witness for C9: an existing directory `out` without `--force`. -/
theorem claim_C9_witness :
    main_after_traversal existingDirFs trivEnv (fun _ => Except.error "no exec") "out" false
      [] "/app" "app" false =
    Except.error ("Output directory " ++ quoteDbg "out" ++
      " already exists. use --force if you want to override") := by
  exact claim_C9 existingDirFs trivEnv (fun _ => Except.error "no exec") "out" false
    [] "/app" "app" false (by rfl)

/-- C10: the pre-copy refusal requires `is_dir()` to hold, so a path that
exists but is not a directory does not trigger it even without the override
flag, and packaging proceeds past the check to the packaging stage. -/
theorem claim_C10 (fs : FsView) (output_name : String)
    (h1 : fs.pathExists output_name = true) (h2 : fs.isDir output_name = false) :
    output_exists_check fs output_name false = false ∧
    ∀ (env : ToolEnv) (exec : List String → Except String ExecOutput)
      (deps : List DependencyNode) (execpath execname : String) (mw : Bool),
      main_after_traversal fs env exec output_name false deps execpath execname mw =
        package_stage env exec output_name deps execpath execname mw := by
  have hc : output_exists_check fs output_name false = false := by
    unfold output_exists_check
    rw [h2]
    simp
  refine ⟨hc, ?_⟩
  intro env exec deps execpath execname mw
  unfold main_after_traversal
  rw [hc]
  simp

def fileNotDirFs : FsView := { isDir := fun _ => false, pathExists := fun p => p = "out" }

/-- Witness for C10: `out` exists as a regular file; the check passes. -/
theorem claim_C10_witness :
    output_exists_check fileNotDirFs "out" false = false ∧
    main_after_traversal fileNotDirFs trivEnv (fun _ => Except.error "no exec") "out" false
      [] "/app" "app" false =
    package_stage trivEnv (fun _ => Except.error "no exec") "out" [] "/app" "app" false := by
  have h := claim_C10 fileNotDirFs "out" (by rfl) (by rfl)
  exact ⟨h.1, h.2 trivEnv (fun _ => Except.error "no exec") [] "/app" "app" false⟩

/-- C1: the LocationMap is first-wins.  Once a traversal state binds a
library name to a resolved path, no later step of a successful traversal
ever replaces that binding (later disagreeing reports are silently
ignored); and in the concrete scenario in which two different ancestors'
linkage reports give different resolved paths for `libC.so` (`libA.so`
reports `/one/libC.so`, the later-visited `libB.so` reports
`/two/libC.so`), the final LocationMap entry is the path reported by the
ancestor whose subtree was visited first in depth-first order. -/
theorem claim_C1 :
    (∀ (env : ToolEnv) (fuel : Nat) (st : TraversalState) (p n : String)
       (st' : TraversalState),
       traverse_dependencies env fuel st p n = some (Except.ok st') →
       ∀ k v, lookupLoc st.locs k = some v → lookupLoc st'.locs k = some v) ∧
    lookupLoc (finalState (traverse_dependencies disagreeEnv 10 initTS "/app" "app")).locs
      "libC.so" = some "/one/libC.so" ∧
    isSomeOk (traverse_dependencies disagreeEnv 10 initTS "/app" "app") = true := by
  refine ⟨?_, rfl, rfl⟩
  intro env fuel st p n st' h k v hk
  exact (traverse_evolve env fuel st p n st' h).locsKeep k v hk

def c1State : TraversalState := { locs := [("libX.so", "/x/libX.so")], visited := [], nodes := [] }

/-- Witness for C1: a pre-existing binding survives a successful traversal. -/
theorem claim_C1_witness :
    lookupLoc (finalState (traverse_dependencies trivEnv 2 c1State "/app" "app")).locs
      "libX.so" = some "/x/libX.so" := by
  exact claim_C1.1 trivEnv 2 c1State "/app" "app"
    (finalState (traverse_dependencies trivEnv 2 c1State "/app" "app")) (by rfl)
    "libX.so" "/x/libX.so" (by rfl)

/-- C2 counterexample: on the trivial graph (a root with no dependencies)
resolution succeeds with a node list of length 1 while the VisitedSet is
empty — the VisitedSet size does not equal the node-list length (the root
is never added to the VisitedSet). -/
theorem claim_C2_counterexample :
    isSomeOk (traverse_dependencies trivEnv 2 initTS "/app" "app") = true ∧
    (finalState (traverse_dependencies trivEnv 2 initTS "/app" "app")).visited.length = 0 ∧
    (finalState (traverse_dependencies trivEnv 2 initTS "/app" "app")).nodes.length = 1 ∧
    ¬ ((finalState (traverse_dependencies trivEnv 2 initTS "/app" "app")).visited.length =
        (finalState (traverse_dependencies trivEnv 2 initTS "/app" "app")).nodes.length) := by
  exact ⟨rfl, rfl, rfl, by decide⟩

/-- C2 (amended): for every dependency graph, cyclic or acyclic, resolution
terminates — with the recursion fuelled, any fuel exceeding the number of
declarable dependency names not yet visited suffices, because a name is
added to the VisitedSet before the recursive visit of it is made — the
VisitedSet never acquires duplicates (each name added to it is visited
exactly once), and on success the node-list length equals the VisitedSet
size **plus one**: the root is visited without being added to the
VisitedSet, and the multiset of node names is the VisitedSet's names plus
one occurrence of the root name. -/
theorem claim_C2_amended (env : ToolEnv) (N : List String) (fuel : Nat)
    (root_path root_name : String)
    (Hn : ∀ p ns, get_needed_libs env p = Except.ok ns → ∀ x ∈ ns, x ∈ N) :
    (unvisitedCount N [] + 1 ≤ fuel →
      (traverse_dependencies env fuel initTS root_path root_name).isSome = true) ∧
    (∀ st', traverse_dependencies env fuel initTS root_path root_name =
        some (Except.ok st') →
      st'.visited.Nodup ∧
      st'.nodes.length = st'.visited.length + 1 ∧
      (∀ x, (st'.nodes.map DependencyNode.name).count x
          = st'.visited.count x + (if x = root_name then 1 else 0))) := by
  constructor
  · intro hle
    exact traverse_isSome env N Hn fuel initTS root_path root_name hle
  · intro st' h
    have ve := traverse_evolve env fuel initTS root_path root_name st' h
    refine ⟨ve.nod (by simp [initTS]), ?_, ?_⟩
    · have hl := ve.len
      simp only [initTS, List.length_nil] at hl
      omega
    · intro x
      have hc := ve.cnt x
      simp only [initTS, List.map_nil, List.count_nil] at hc
      omega

/-- Witness for C2 (amended) on the trivial graph: fuel 2 suffices and the
final node list has one more element than the VisitedSet. -/
theorem claim_C2_amended_witness :
    (traverse_dependencies trivEnv 2 initTS "/app" "app").isSome = true ∧
    (finalState (traverse_dependencies trivEnv 2 initTS "/app" "app")).nodes.length =
      (finalState (traverse_dependencies trivEnv 2 initTS "/app" "app")).visited.length + 1 := by
  have Hn : ∀ p ns, get_needed_libs trivEnv p = Except.ok ns →
      ∀ x ∈ ns, x ∈ ([] : List String) := by
    intro p ns h x hx
    by_cases hp : p = "/app"
    · subst hp
      rw [show get_needed_libs trivEnv "/app" = Except.ok [] from rfl] at h
      cases h
      cases hx
    · simp [get_needed_libs, trivEnv, hp] at h
  have H := claim_C2_amended trivEnv [] 2 "/app" "app" Hn
  refine ⟨H.1 (by decide), ?_⟩
  exact (H.2 (finalState (traverse_dependencies trivEnv 2 initTS "/app" "app")) (by rfl)).2.1

/-- The post-order reading of C3: every node's every declared dependency has
a node at the same or an earlier position in the list. -/
def postOrderOK (nodes : List DependencyNode) : Prop :=
  ∀ i : Fin nodes.length, ∀ d ∈ (nodes.get i).dependencies,
    ∃ j : Fin nodes.length, j.val ≤ i.val ∧ (nodes.get j).name = d

instance (nodes : List DependencyNode) : Decidable (postOrderOK nodes) := by
  unfold postOrderOK
  infer_instance

/-- C3 counterexample: on a cyclic graph (`app` → `libA.so` → `libB.so` →
`libA.so`) resolution succeeds with node list `[libB.so, libA.so, app]`;
the first appended node `libB.so` lists dependency `libA.so` whose own node
is appended only later, so the list is not in post-order in the sense that
a node is appended only after all of its dependencies have been fully
visited. -/
theorem claim_C3_counterexample :
    isSomeOk (traverse_dependencies cycleEnv 10 initTS "/app" "app") = true ∧
    (finalState (traverse_dependencies cycleEnv 10 initTS "/app" "app")).nodes =
      [⟨"libB.so", "/lib/libB.so", ["libA.so"]⟩,
       ⟨"libA.so", "/lib/libA.so", ["libB.so"]⟩,
       ⟨"app", "/app", ["libA.so"]⟩] ∧
    ¬ postOrderOK (finalState (traverse_dependencies cycleEnv 10 initTS "/app" "app")).nodes := by
  exact ⟨rfl, rfl, by decide⟩

/-! ## Positional post-order law (C3)

Where does each dependency's node sit in the final list?  At an
equal-or-earlier position than the depending node — unless the dependency
closes a cycle back onto the current depth-first path, in which case the
dependency transitively depends, through the recorded dependency lists, on
the depending node's own name, and its own node is appended later.  The
induction tracks the stack of in-progress visits (`chainToF`) and the fact
that every name in `use_libs` either already has a completed node or is
still on that stack (`visitedAccounted`). -/

/-- `a`'s recorded node in `F` declares `b` among its dependencies. -/
def depEdge (F : List DependencyNode) (a b : String) : Prop :=
  ∃ nd ∈ F, nd.name = a ∧ b ∈ nd.dependencies

/-- Position `j` of `F` holds a node named `d`. -/
def nodeNamedAt (F : List DependencyNode) (j : Nat) (d : String) : Prop :=
  ∃ m, F[j]? = some m ∧ m.name = d

def hasNodeNamed (F : List DependencyNode) (a : String) : Prop :=
  ∃ nd ∈ F, nd.name = a

/-- The positional law for the node at position `i` of `F`: each declared
dependency has a node at an equal-or-earlier position, or transitively
depends on this node's own name (closes a cycle). -/
def goodNode (F : List DependencyNode) (i : Nat) (nd : DependencyNode) : Prop :=
  ∀ d ∈ nd.dependencies,
    (∃ j, j ≤ i ∧ nodeNamedAt F j d) ∨ Relation.TransGen (depEdge F) d nd.name

/-- The current depth-first stack, most recent name first: each in-progress
ancestor's eventual node in `F` declares the next more recent name. -/
def chainToF (F : List DependencyNode) : List String → Prop
  | [] => True
  | [_] => True
  | b :: a :: rest => depEdge F a b ∧ chainToF F (a :: rest)

/-- Every visited name either already has a completed node or is still on
the in-progress stack `pend`. -/
def visitedAccounted (st : TraversalState) (pend : List String) : Prop :=
  ∀ x ∈ st.visited, hasNodeNamed st.nodes x ∨ x ∈ pend

/-- Conclusion of a completed visit of `n` whose in-progress ancestors are
`rest`: every newly appended node satisfies the positional law, and every
visited name is accounted for without `n` (its node now exists). -/
def VisitPos (F : List DependencyNode) (rest : List String)
    (st st' : TraversalState) : Prop :=
  (∀ i nd, st.nodes.length ≤ i → st'.nodes[i]? = some nd → goodNode F i nd) ∧
  visitedAccounted st' rest

/-- Conclusion of the dependency loop of the in-progress node `n`: every
remaining declared dependency already has a node strictly before the
position where `n`'s node will go, or closes a cycle onto `n`; every newly
appended node satisfies the positional law; every visited name is
accounted for with `n` still in progress. -/
def GoDepsPos (F : List DependencyNode) (n : String) (rest libs : List String)
    (st st' : TraversalState) : Prop :=
  (∀ d ∈ libs, (∃ j, j < st'.nodes.length ∧ nodeNamedAt F j d) ∨
    Relation.TransGen (depEdge F) d n) ∧
  (∀ i nd, st.nodes.length ≤ i → st'.nodes[i]? = some nd → goodNode F i nd) ∧
  visitedAccounted st' (n :: rest)

theorem chainToF_transGen (F : List DependencyNode) :
    ∀ (x : String) (xs : List String), chainToF F (x :: xs) →
      ∀ a ∈ xs, Relation.TransGen (depEdge F) a x := by
  intro x xs
  induction xs generalizing x with
  | nil => intro _ a ha; cases ha
  | cons b restL ih =>
    intro hch a ha
    have hch2 : depEdge F b x ∧ chainToF F (b :: restL) := hch
    rcases List.mem_cons.mp ha with hab | ha2
    · subst hab
      exact Relation.TransGen.single hch2.1
    · exact (ih b hch2.2 a ha2).tail hch2.1

theorem goDeps_positional (F : List DependencyNode)
    (visit : TraversalState → String → String → Option (Except String TraversalState))
    (Hve : ∀ st p n st', visit st p n = some (Except.ok st') → VisitEvolve p n st st')
    (Hvp : ∀ st p n rest st' suf, visit st p n = some (Except.ok st') →
      chainToF F (n :: rest) → visitedAccounted st (n :: rest) →
      F = st'.nodes ++ suf → VisitPos F rest st st') :
    ∀ (libs : List String) (st : TraversalState) (acc accOut : List String)
      (st' : TraversalState) (n : String) (rest : List String)
      (suf : List DependencyNode),
      goDeps visit st libs acc = some (Except.ok (accOut, st')) →
      chainToF F (n :: rest) →
      (∃ nd ∈ F, nd.name = n ∧ ∀ x ∈ libs, x ∈ nd.dependencies) →
      visitedAccounted st (n :: rest) →
      F = st'.nodes ++ suf →
      GoDepsPos F n rest libs st st' := by
  intro libs
  induction libs with
  | nil =>
    intro st acc accOut st' n rest suf h hchain hFn hvis hF
    simp only [goDeps] at h
    cases h
    refine ⟨?_, ?_, ?_⟩
    · intro d hd
      cases hd
    · intro i nd hi hget
      rw [List.getElem?_eq_none hi] at hget
      cases hget
    · exact hvis
  | cons lib restL ih =>
    intro st acc accOut st' n rest suf h hchain hFn hvis hF
    obtain ⟨ndn, hndF, hndn, hnddeps⟩ := hFn
    have hFnRest : ∃ nd ∈ F, nd.name = n ∧ ∀ x ∈ restL, x ∈ nd.dependencies :=
      ⟨ndn, hndF, hndn, fun x hx => hnddeps x (List.mem_cons_of_mem _ hx)⟩
    simp only [goDeps] at h
    split at h
    · simp at h
    · rename_i lib_path hlk
      split at h
      · rename_i hcont
        have hmem : lib ∈ st.visited := (contains_true_iff _ _).mp hcont
        have gIH := ih st (acc ++ [lib]) accOut st' n rest suf h hchain hFnRest hvis hF
        have gAll := goDeps_evolve visit Hve restL st (acc ++ [lib]) accOut st' h
        obtain ⟨δw, hδw⟩ := gAll.next
        refine ⟨?_, gIH.2.1, gIH.2.2⟩
        intro d hd
        rcases List.mem_cons.mp hd with hdl | hdr
        · subst hdl
          rcases hvis d hmem with hnode | hpend
          · obtain ⟨m, hmmem, hmname⟩ := hnode
            obtain ⟨j, hj, hval⟩ := List.getElem_of_mem hmmem
            refine Or.inl ⟨j, ?_, ?_⟩
            · rw [hδw, List.length_append]
              omega
            · refine ⟨m, ?_, hmname⟩
              rw [hF, hδw, List.append_assoc, List.getElem?_append_left hj,
                List.getElem?_eq_getElem hj, hval]
          · rcases List.mem_cons.mp hpend with hdn | hdr2
            · refine Or.inr (Relation.TransGen.single ?_)
              rw [hdn]
              exact ⟨ndn, hndF, hndn, by
                rw [← hdn]; exact hnddeps d (List.mem_cons_self _ _)⟩
            · exact Or.inr (chainToF_transGen F n rest hchain d hdr2)
        · exact gIH.1 d hdr
      · rename_i hcont
        split at h
        · simp at h
        · simp at h
        · rename_i st2 hv
          have ve2 := Hve _ _ _ _ hv
          have grest := goDeps_evolve visit Hve restL st2 (acc ++ [lib]) accOut st' h
          obtain ⟨δ2, hδ2⟩ := grest.next
          have hFChild : F = st2.nodes ++ (δ2 ++ suf) := by
            rw [hF, hδ2, List.append_assoc]
          have hedge : depEdge F n lib :=
            ⟨ndn, hndF, hndn, hnddeps lib (List.mem_cons_self _ _)⟩
          have hchainChild : chainToF F (lib :: n :: rest) := ⟨hedge, hchain⟩
          have hvisChild :
              visitedAccounted { st with visited := st.visited ++ [lib] }
                (lib :: n :: rest) := by
            intro x hx
            rcases List.mem_append.mp hx with hx | hx
            · rcases hvis x hx with hnode | hp
              · exact Or.inl hnode
              · exact Or.inr (List.mem_cons_of_mem _ hp)
            · rw [List.mem_singleton.mp hx]
              exact Or.inr (List.mem_cons_self _ _)
          have hvp := Hvp { st with visited := st.visited ++ [lib] } lib_path lib
            (n :: rest) st2 (δ2 ++ suf) hv hchainChild hvisChild hFChild
          have gIH := ih st2 (acc ++ [lib]) accOut st' n rest suf h hchain hFnRest
            hvp.2 hF
          refine ⟨?_, ?_, gIH.2.2⟩
          · intro d hd
            rcases List.mem_cons.mp hd with hdl | hdr
            · subst hdl
              obtain ⟨pre2, deps2, hlast⟩ := ve2.lastNode
              have hlen : pre2.length < st2.nodes.length := by
                rw [hlast, List.length_append]
                simp
              refine Or.inl ⟨pre2.length, ?_, ?_⟩
              · rw [hδ2, List.length_append]
                omega
              · refine ⟨⟨d, lib_path, deps2⟩, ?_, rfl⟩
                rw [hFChild, List.getElem?_append_left hlen, hlast]
                exact List.getElem?_concat_length _ _
            · exact gIH.1 d hdr
          · intro i nd hi hget
            by_cases hcase : i < st2.nodes.length
            · have hget2 : st2.nodes[i]? = some nd := by
                rw [hδ2, List.getElem?_append_left hcase] at hget
                exact hget
              exact hvp.1 i nd hi hget2
            · exact gIH.2.1 i nd (by omega) hget

theorem traverse_positional (F : List DependencyNode) (env : ToolEnv) :
    ∀ (fuel : Nat) (st : TraversalState) (p n : String) (rest : List String)
      (st' : TraversalState) (suf : List DependencyNode),
      traverse_dependencies env fuel st p n = some (Except.ok st') →
      chainToF F (n :: rest) → visitedAccounted st (n :: rest) →
      F = st'.nodes ++ suf → VisitPos F rest st st' := by
  intro fuel
  induction fuel with
  | zero =>
    intro st p n rest st' suf h
    simp [traverse_dependencies] at h
  | succ f ih =>
    intro st p n rest st' suf h hchain hvis hF
    simp only [traverse_dependencies] at h
    split at h
    · simp at h
    · rename_i shared_libs hldd
      split at h
      · simp at h
      · rename_i ns hneed
        split at h
        · simp at h
        · simp at h
        · rename_i y deps st2 hg
          simp only [Option.some.injEq, Except.ok.injEq] at h
          subst h
          have Hve : ∀ st2 p2 n2 st2',
              traverse_dependencies env f st2 p2 n2 = some (Except.ok st2') →
              VisitEvolve p2 n2 st2 st2' := traverse_evolve env f
          have gE := goDeps_evolve (traverse_dependencies env f) Hve ns
            { st with locs := addLibs st.locs shared_libs } [] deps st2 hg
          have haccEq : deps = ns := by
            have := gE.accEq
            simpa using this
          subst haccEq
          have hFn : ∃ nd ∈ F, nd.name = n ∧ ∀ x ∈ deps, x ∈ nd.dependencies := by
            refine ⟨⟨n, p, deps⟩, ?_, rfl, fun x hx => hx⟩
            rw [hF]
            exact List.mem_append_left _
              (List.mem_append_right _ (List.mem_singleton.mpr rfl))
          have gP := goDeps_positional F (traverse_dependencies env f) Hve
            (fun sta pa na ra sta' sufa ha hca hva hfa => ih sta pa na ra sta' sufa ha hca hva hfa)
            deps { st with locs := addLibs st.locs shared_libs } [] deps st2 n rest
            ([⟨n, p, deps⟩] ++ suf) hg hchain hFn hvis
            (by rw [hF, List.append_assoc])
          refine ⟨?_, ?_⟩
          · intro i nd hi hget
            by_cases hlt : i < st2.nodes.length
            · have hget2 : st2.nodes[i]? = some nd := by
                rw [List.getElem?_append_left hlt] at hget
                exact hget
              exact gP.2.1 i nd hi hget2
            · by_cases heq : i = st2.nodes.length
              · subst heq
                rw [List.getElem?_concat_length] at hget
                cases hget
                intro d hd
                rcases gP.1 d hd with ⟨j, hj, hnm⟩ | htg
                · exact Or.inl ⟨j, by omega, hnm⟩
                · exact Or.inr htg
              · have hlen : (st2.nodes ++ [(⟨n, p, deps⟩ : DependencyNode)]).length ≤ i := by
                  rw [List.length_append]
                  simp only [List.length_singleton]
                  omega
                rw [List.getElem?_eq_none hlen] at hget
                cases hget
          · intro x hx
            rcases gP.2.2 x hx with hnode | hp
            · obtain ⟨m, hm, hmn⟩ := hnode
              exact Or.inl ⟨m, List.mem_append_left _ hm, hmn⟩
            · rcases List.mem_cons.mp hp with hxn | hxr
              · rw [hxn]
                exact Or.inl ⟨⟨n, p, deps⟩,
                  List.mem_append_right _ (List.mem_singleton.mpr rfl), rfl⟩
              · exact Or.inr hxr

/-- C3 (amended): on every successful resolution the root executable's node
is the last element of the node list, and the list is in post-order up to
cycles: every declared dependency `d` of the node at position `i` has a
node of its own in the list, at a position `j ≤ i` — except when `d` closes
a dependency cycle back onto that node (i.e. `d` transitively depends,
through the recorded dependency lists, on the node's own name, `d` being an
ancestor whose depth-first visit was still in progress), in which case
`d`'s node is appended later; moreover every declared dependency of every
node is in the final VisitedSet and has a node somewhere in the list; in
the diamond scenario the list is exactly `[libC.so, libA.so, libB.so,
app]`. -/
theorem claim_C3_amended (env : ToolEnv) (fuel : Nat) (root_path root_name : String)
    (st' : TraversalState)
    (h : traverse_dependencies env fuel initTS root_path root_name = some (Except.ok st')) :
    (∃ pre deps, st'.nodes = pre ++ [⟨root_name, root_path, deps⟩]) ∧
    (∀ (i : Nat) (nd : DependencyNode), st'.nodes[i]? = some nd → ∀ d ∈ nd.dependencies,
      (∃ j, j ≤ i ∧ ∃ m : DependencyNode, st'.nodes[j]? = some m ∧ m.name = d) ∨
      Relation.TransGen (depEdge st'.nodes) d nd.name) ∧
    (∀ nd ∈ st'.nodes, ∀ d ∈ nd.dependencies,
      d ∈ st'.visited ∧ ∃ m ∈ st'.nodes, m.name = d) ∧
    (finalState (traverse_dependencies diamondEnv 10 initTS "/app" "app")).nodes.map
      DependencyNode.name = ["libC.so", "libA.so", "libB.so", "app"] := by
  have ve := traverse_evolve env fuel initTS root_path root_name st' h
  have hpos := traverse_positional st'.nodes env fuel initTS root_path root_name []
    st' [] h trivial (by intro x hx; cases hx) (by simp)
  refine ⟨ve.lastNode, ?_, ?_, rfl⟩
  · intro i nd hget d hd
    have hgood := hpos.1 i nd (Nat.zero_le i) hget
    rcases hgood d hd with ⟨j, hj, m, hm, hmn⟩ | htg
    · exact Or.inl ⟨j, hj, m, hm, hmn⟩
    · exact Or.inr htg
  · intro nd hnd d hd
    have hvd : d ∈ st'.visited := by
      rcases ve.depsVisited nd hnd with hin | hsub
      · cases hin
      · exact hsub d hd
    refine ⟨hvd, ?_⟩
    have hcnt := ve.cnt d
    simp only [initTS, List.map_nil, List.count_nil] at hcnt
    have hpos2 : 0 < st'.visited.count d := List.count_pos_iff.mpr hvd
    have hpos3 : 0 < (st'.nodes.map DependencyNode.name).count d := by omega
    have hmem : d ∈ st'.nodes.map DependencyNode.name := List.count_pos_iff.mp hpos3
    obtain ⟨m, hm, hmn⟩ := List.mem_map.mp hmem
    exact ⟨m, hm, hmn⟩

/-- Witness for C3 (amended) on the diamond scenario. -/
theorem claim_C3_amended_witness :
    ∃ pre deps, (finalState (traverse_dependencies diamondEnv 10 initTS "/app" "app")).nodes =
      pre ++ [⟨"app", "/app", deps⟩] := by
  exact (claim_C3_amended diamondEnv 10 "/app" "app"
    (finalState (traverse_dependencies diamondEnv 10 initTS "/app" "app")) (by rfl)).1

/-- An environment whose `ldd` output for `/app` has an ordinary entry and a
loader entry (name beginning with `/`). -/
def loaderEnv : ToolEnv :=
  { lddOut := fun p =>
      if p = "/app" then
        Except.ok
          "\tlibfoo.so => /lib/libfoo.so (0x0001)\n\t/lib64/ld-linux-x86-64.so.2 => /lib64/ld-linux-x86-64.so.2 (0x0002)\n"
      else Except.error "ldd: no such file"
    patchelfPrintNeeded := fun _ => Except.ok "" }

/-- An environment whose `ldd` output for `/app` reports only an ordinary
entry and no loader entry at all. -/
def noLoaderEnv : ToolEnv :=
  { lddOut := fun p =>
      if p = "/app" then Except.ok "\tlibfoo.so => /lib/libfoo.so (0x0001)\n"
      else Except.error "ldd: no such file"
    patchelfPrintNeeded := fun _ => Except.ok "" }

/-- C6 counterexample: when the inspector reports no loader entry (no name
beginning with a path separator) but does report an ordinary dependency,
`get_loader` does not fail — it returns the first ordinary entry as the
loader — contradicting the claim that the loader-discovery call fails
whenever no loader entry is reported. -/
theorem claim_C6_counterexample :
    parse_ldd_output noLoaderEnv "/app" true =
      Except.ok [⟨"libfoo.so", "/lib/libfoo.so"⟩] ∧
    startsWithL ['/'] ("libfoo.so" : String).toList = false ∧
    get_loader noLoaderEnv "/app" = Except.ok ⟨"libfoo.so", "/lib/libfoo.so"⟩ := by
  exact ⟨rfl, by decide, rfl⟩

/-- C6 (amended): entries whose reported name begins with a path separator
are excluded from `get_lib_path_list` results and hence from every
LocationMap insertion; the loader is resolved via the dedicated
loader-discovery call, which returns the first reported entry whose name
begins with a path separator with that name stripped of its directory
components; if the loader-mode parse yields no entries at all the call
fails — but when ordinary entries exist and no loader entry is reported,
the call returns the first ordinary entry instead of failing. -/
theorem claim_C6_amended :
    (∀ (env : ToolEnv) (p : String) (r : List SharedLib),
       get_lib_path_list env p = Except.ok r →
       ∀ lib ∈ r, startsWithL ['/'] lib.name.toList = false) ∧
    (∀ (env : ToolEnv) (fuel : Nat) (st : TraversalState) (p n : String)
       (st' : TraversalState),
       traverse_dependencies env fuel st p n = some (Except.ok st') →
       ∀ k v, lookupLoc st.locs k = none → lookupLoc st'.locs k = some v →
         startsWithL ['/'] k.toList = false) ∧
    (∀ (env : ToolEnv) (path s : String), env.lddOut path = Except.ok s →
       parseLddLines true (rustLinesC s) [] = Except.ok [] →
       get_loader env path =
         Except.error ("Failed to get loader from " ++ quoteDbg path)) ∧
    get_loader loaderEnv "/app" =
      Except.ok ⟨"ld-linux-x86-64.so.2", "/lib64/ld-linux-x86-64.so.2"⟩ := by
  refine ⟨?_, ?_, ?_, rfl⟩
  · exact get_lib_path_list_no_slash
  · intro env fuel st p n st' h k v h0 h1
    exact (traverse_evolve env fuel st p n st' h).newKeys k v h0 h1
  · intro env path s h1 h2
    simp only [get_loader, parse_ldd_output, h1, h2]
    rfl

/-- Witness for C6 (amended): a reported ordinary entry has no leading
slash, a surviving new map key has no leading slash, and loader discovery
fails when the loader-mode parse yields nothing. -/
theorem claim_C6_amended_witness :
    startsWithL ['/'] ("libfoo.so" : String).toList = false ∧
    startsWithL ['/'] ("libA.so" : String).toList = false ∧
    get_loader trivEnv "/app" =
      Except.error ("Failed to get loader from " ++ quoteDbg "/app") := by
  refine ⟨?_, ?_, ?_⟩
  · exact claim_C6_amended.1 noLoaderEnv "/app" [⟨"libfoo.so", "/lib/libfoo.so"⟩] (by rfl)
      ⟨"libfoo.so", "/lib/libfoo.so"⟩ (by simp)
  · exact claim_C6_amended.2.1 diamondEnv 10 initTS "/app" "app"
      (finalState (traverse_dependencies diamondEnv 10 initTS "/app" "app")) (by rfl)
      "libA.so" "/lib/libA.so" (by rfl) (by rfl)
  · exact claim_C6_amended.2.2.1 trivEnv "/app" "" (by rfl) (by rfl)

/-! ## Substring lemmas for error-message and launcher-content facts -/

theorem startsWithL_append_self (pat suf : List Char) :
    startsWithL pat (pat ++ suf) = true := by
  induction pat with
  | nil => rfl
  | cons c cs ih => simp [startsWithL, ih]

theorem hasSubL_append (pre pat suf : List Char) :
    hasSubL pat (pre ++ pat ++ suf) = true := by
  induction pre with
  | nil =>
    cases pat with
    | nil =>
      cases suf with
      | nil => rfl
      | cons c cs => simp [hasSubL, startsWithL]
    | cons p ps =>
      have h1 : ((p :: ps) ++ suf) = p :: (ps ++ suf) := rfl
      simp only [List.nil_append]
      rw [h1]
      simp only [hasSubL, Bool.or_eq_true]
      refine Or.inl ?_
      rw [show p :: (ps ++ suf) = (p :: ps) ++ suf from rfl]
      exact startsWithL_append_self _ _
  | cons c cs ih =>
    have h1 : ((c :: cs) ++ pat ++ suf) = c :: (cs ++ pat ++ suf) := by simp
    rw [h1]
    simp only [hasSubL, Bool.or_eq_true]
    refine Or.inr ?_
    exact ih

theorem containsSub_of_decomp (pre mid suf : String) :
    containsSub (pre ++ mid ++ suf) mid = true := by
  unfold containsSub
  have : (pre ++ mid ++ suf).toList = pre.toList ++ mid.toList ++ suf.toList := by
    simp [String.toList, String.data_append]
  rw [this]
  exact hasSubL_append pre.toList mid.toList suf.toList

/-- Every dependency processed by the copy loop gets exactly the
`patchelf --set-interpreter ./<loader> --set-rpath .` invocation recorded
on its copy in the archive. -/
theorem copy_deps_loop_patch_mem (exec : List String → Except String ExecOutput)
    (a ln : String) :
    ∀ (deps : List DependencyNode) (acts : List FsAction),
      copy_deps_loop exec a ln deps = Except.ok acts →
      ∀ dep ∈ deps, ∃ fname, fileNameOf dep.path = some fname ∧
        FsAction.execCmd (patchLoaderArgs ln (a ++ "/" ++ fname)) ∈ acts := by
  intro deps
  induction deps with
  | nil => intro acts h dep hd; cases hd
  | cons d rest ih =>
    intro acts h dep hd
    simp only [copy_deps_loop] at h
    split at h
    · cases h
    · rename_i fname hfn
      split at h
      · cases h
      · split at h
        · cases h
        · rename_i acts2 hrec
          cases h
          rcases List.mem_cons.mp hd with hdd | hdd
          · subst hdd
            exact ⟨fname, hfn, by simp⟩
          · obtain ⟨f2, hf2, hm2⟩ := ih acts2 hrec dep hdd
            exact ⟨f2, hf2, by simp [hm2]⟩

/-- C7: for every DependencyNode in the packaged list the copy in the
output directory gets `patchelf --set-interpreter ./<loader-name>
--set-rpath .`; an editor failure whose stderr mentions "statically linked"
is treated as success; any other editor failure aborts packaging with an
error naming the file; and the loader's own copy — made after every patch
invocation — is never patched (no `patchelf` invocation follows the loader
copy in the action trace). -/
theorem claim_C7 :
    (∀ loader obj, patchLoaderArgs loader obj =
      ["patchelf", "--set-interpreter", "./" ++ loader, "--set-rpath", ".", obj]) ∧
    (∀ (exec : List String → Except String ExecOutput) (loader obj : String)
       (out : ExecOutput), exec (patchLoaderArgs loader obj) = Except.ok out →
       out.status ≠ 0 → containsSub out.stderr "statically linked" = true →
       patch_loader exec loader obj = Except.ok ()) ∧
    (∀ (exec : List String → Except String ExecOutput) (loader obj : String)
       (out : ExecOutput), exec (patchLoaderArgs loader obj) = Except.ok out →
       out.status ≠ 0 → containsSub out.stderr "statically linked" = false →
       patch_loader exec loader obj = Except.error
         ("Failed to patch loader for " ++ quoteDbg obj ++ "\n" ++ out.stderr) ∧
       containsSub ("Failed to patch loader for " ++ quoteDbg obj ++ "\n" ++ out.stderr)
         obj = true) ∧
    (∀ (exec : List String → Except String ExecOutput) (a ln : String)
       (dep : DependencyNode) (rest : List DependencyNode) (fname e : String),
       fileNameOf dep.path = some fname →
       patch_loader exec ln (a ++ "/" ++ fname) = Except.error e →
       copy_deps_loop exec a ln (dep :: rest) = Except.error e) ∧
    (∀ (exec : List String → Except String ExecOutput) (archive : String)
       (deps : List DependencyNode) (loader : SharedLib) (execname : String) (mw : Bool)
       (tr : List FsAction),
       copy_dependencies_to_output_folder exec archive deps loader execname mw =
         Except.ok tr →
       (∀ dep ∈ deps, ∃ fname, fileNameOf dep.path = some fname ∧
         FsAction.execCmd (patchLoaderArgs loader.name (archive ++ "/" ++ fname)) ∈ tr) ∧
       ∃ t1 t2, tr = t1 ++
           FsAction.copyFile loader.path (archive ++ "/" ++ loader.name) :: t2 ∧
         ∀ args, FsAction.execCmd args ∈ t2 → args.head? ≠ some "patchelf") := by
  refine ⟨fun _ _ => rfl, ?_, ?_, ?_, ?_⟩
  · intro exec loader obj out h hst hsub
    unfold patch_loader
    rw [h]
    simp [hst, hsub]
  · intro exec loader obj out h hst hsub
    constructor
    · unfold patch_loader
      rw [h]
      simp [hst, hsub]
    · have hmsg : "Failed to patch loader for " ++ quoteDbg obj ++ "\n" ++ out.stderr =
          ("Failed to patch loader for " ++ "\"") ++ obj ++ ("\"" ++ "\n" ++ out.stderr) := by
        simp only [quoteDbg, String.append_assoc]
      rw [hmsg]
      exact containsSub_of_decomp _ _ _
  · intro exec a ln dep rest fname e hfn hpl
    simp only [copy_deps_loop]
    rw [hfn]
    simp only
    rw [hpl]
  · intro exec archive deps loader execname mw tr h
    unfold copy_dependencies_to_output_folder at h
    split at h
    · cases h
    · rename_i depActs hloop
      constructor
      · intro dep hd
        obtain ⟨fname, hfn, hm⟩ := copy_deps_loop_patch_mem exec archive loader.name
          deps depActs hloop dep hd
        refine ⟨fname, hfn, ?_⟩
        split at h
        · split at h
          · cases h
          · split at h
            · cases h
            · cases h
              simp [hm]
        · cases h
          simp [hm]
      · split at h
        · split at h
          · cases h
          · split at h
            · cases h
            · cases h
              refine ⟨FsAction.mkdirAll archive :: depActs,
                [FsAction.renameFile (archive ++ "/" ++ execname)
                   (archive ++ "/" ++ ("." ++ execname ++ "-original")),
                 FsAction.writeFile (archive ++ "/" ++ execname)
                   (make_shell_script_wrapper ("." ++ execname ++ "-original") loader.name),
                 FsAction.execCmd ["chmod", "+x", archive ++ "/" ++ execname]], ?_, ?_⟩
              · simp
              · intro args hargs
                simp only [List.mem_cons, List.mem_singleton] at hargs
                rcases hargs with h1 | h1 | h1 | h1
                · cases h1
                · cases h1
                · cases h1
                  simp
                · cases h1
        · cases h
          refine ⟨FsAction.mkdirAll archive :: depActs, [], by simp, ?_⟩
          intro args hargs
          cases hargs

/-- An editor oracle that reports a "statically linked" failure. -/
def staticExec : List String → Except String ExecOutput :=
  fun _ =>
    Except.ok ⟨1, "", "cannot find section .interp. The input file is most likely statically linked"⟩

/-- An editor oracle for which every invocation succeeds. -/
def okExec : List String → Except String ExecOutput :=
  fun _ => Except.ok ⟨0, "", ""⟩

def demoLoader : SharedLib := { name := "ld.so", path := "/lib/ld.so" }

def demoDeps : List DependencyNode := [{ name := "app", path := "/app", dependencies := [] }]

def demoTrace : List FsAction :=
  match copy_dependencies_to_output_folder okExec "out" demoDeps demoLoader "app" false with
  | Except.ok tr => tr
  | _ => []

/-- Witness for C7: a statically-linked editor failure is success, and a
concrete packaging run patches the dependency copy and never patches after
the loader copy. -/
theorem claim_C7_witness :
    patch_loader staticExec "ld.so" "/out/app" = Except.ok () ∧
    ((∀ dep ∈ demoDeps, ∃ fname, fileNameOf dep.path = some fname ∧
        FsAction.execCmd (patchLoaderArgs demoLoader.name ("out" ++ "/" ++ fname)) ∈ demoTrace) ∧
      ∃ t1 t2, demoTrace = t1 ++
          FsAction.copyFile demoLoader.path ("out" ++ "/" ++ demoLoader.name) :: t2 ∧
        ∀ args, FsAction.execCmd args ∈ t2 → args.head? ≠ some "patchelf") := by
  constructor
  · exact claim_C7.2.1 staticExec "ld.so" "/out/app"
      ⟨1, "", "cannot find section .interp. The input file is most likely statically linked"⟩
      (by rfl) (by decide) (by decide)
  · exact claim_C7.2.2.2.2 okExec "out" demoDeps demoLoader "app" false demoTrace (by rfl)

/-- C8: when the launcher is requested and packaging succeeds, the action
trace ends with renaming the copied root executable `<name>` to
`.<name>-original`, writing a new file at `<name>` whose content is the
generated launcher, and marking it executable with `chmod +x`; and for all
names, the launcher content is exactly the script that resolves its own
directory into `SCRIPTPATH`, invokes `$SCRIPTPATH/<loader-name>` with the
explicit library-search-path argument `--library-path "$SCRIPTPATH"`,
executes `$SCRIPTPATH/.<name>-original`, and forwards all caller-supplied
arguments via `"$@"`. -/
theorem claim_C8 :
    (∀ (exec : List String → Except String ExecOutput) (archive : String)
       (deps : List DependencyNode) (loader : SharedLib) (execname : String)
       (tr : List FsAction),
       copy_dependencies_to_output_folder exec archive deps loader execname true =
         Except.ok tr →
       ∃ t1, tr = t1 ++
         [FsAction.renameFile (archive ++ "/" ++ execname)
            (archive ++ "/" ++ ("." ++ execname ++ "-original")),
          FsAction.writeFile (archive ++ "/" ++ execname)
            (make_shell_script_wrapper ("." ++ execname ++ "-original") loader.name),
          FsAction.execCmd ["chmod", "+x", archive ++ "/" ++ execname]]) ∧
    (∀ n l, (make_shell_script_wrapper n l).toList =
      ("#!/usr/bin/env bash\n\nSCRIPTPATH=\"$( cd -- \"$(dirname \"$0\")\" >/dev/null 2>&1 ; pwd -P )\"").toList ++
      ("\n").toList ++ ("\"$SCRIPTPATH/").toList ++ l.toList ++
      ("\" --library-path \"$SCRIPTPATH\" \"$SCRIPTPATH/").toList ++ n.toList ++
      ("\" \"$@\"").toList) := by
  constructor
  · intro exec archive deps loader execname tr h
    unfold copy_dependencies_to_output_folder at h
    split at h
    · cases h
    · rename_i depActs hloop
      rw [if_pos rfl] at h
      split at h
      · cases h
      · split at h
        · cases h
        · cases h
          refine ⟨FsAction.mkdirAll archive ::
            (depActs ++ [FsAction.copyFile loader.path (archive ++ "/" ++ loader.name)]), ?_⟩
          simp
  · intro n l
    simp [make_shell_script_wrapper, String.toList, String.data_append, List.append_assoc]

def demoTraceW : List FsAction :=
  match copy_dependencies_to_output_folder okExec "out" demoDeps demoLoader "app" true with
  | Except.ok tr => tr
  | _ => []

/-- Witness for C8 on a concrete launcher-requested packaging run. -/
theorem claim_C8_witness :
    ∃ t1, demoTraceW = t1 ++
      [FsAction.renameFile ("out" ++ "/" ++ "app")
         ("out" ++ "/" ++ ("." ++ "app" ++ "-original")),
       FsAction.writeFile ("out" ++ "/" ++ "app")
         (make_shell_script_wrapper ("." ++ "app" ++ "-original") demoLoader.name),
       FsAction.execCmd ["chmod", "+x", "out" ++ "/" ++ "app"]] := by
  exact claim_C8.1 okExec "out" demoDeps demoLoader "app" demoTraceW (by rfl)
